import Mathlib

/-!
Verification development for `wifi_priority.py`, an interactive terminal editor for the
macOS preferred-WiFi-network priority list.

The Python source is shallowly embedded below: the in-memory editor state
(`WiFiReorderApp`) becomes the structure `AppState`; its key handlers and list
operations become pure Lean functions on that structure; the save pipeline
(`action_save`, `_backup_networks`, `_apply_network_priority`) becomes a function
producing a result together with a trace of external events (backup write, remove
command, add command); the external `networksetup` preferred-network store is modelled
as an ordered list of names.  Python string operations used by the source
(`strip`, `startswith`, `replace`, substring test, `split` on newline, lexicographic
filename sort) are implemented character by character so that all definitions evaluate
by kernel reduction.
-/

/-- Whitespace characters removed by Python `str.strip()`. -/
def isPyWhitespace (c : Char) : Bool :=
  c = ' ' || c = '\t' || c = '\n' || c = '\r' || c = '\x0b' || c = '\x0c'

/-- Python `str.strip()` on a character list: drop whitespace from both ends. -/
def pyStripChars (l : List Char) : List Char :=
  ((l.dropWhile isPyWhitespace).reverse.dropWhile isPyWhitespace).reverse

/-- Python `str.strip()`. -/
def pyStrip (s : String) : String :=
  ⟨pyStripChars s.data⟩

/-- First list is a prefix of the second (character-level `str.startswith`). -/
def isPrefixCharList : List Char → List Char → Bool
  | [], _ => true
  | _ :: _, [] => false
  | p :: ps, c :: cs => p = c && isPrefixCharList ps cs

/-- Python substring test `pat in s` at character level. -/
def containsCharList (pat : List Char) : List Char → Bool
  | [] => isPrefixCharList pat []
  | c :: cs => isPrefixCharList pat (c :: cs) || containsCharList pat cs

/-- Python `pat in s` on strings. -/
def strContains (s pat : String) : Bool :=
  containsCharList pat.data s.data

/-- Python `s.startswith(pat)`. -/
def strStartsWith (s pat : String) : Bool :=
  isPrefixCharList pat.data s.data

/-- Python `s.split("\n")` on a character list: newline-separated groups, keeping
empty groups, with at least one (possibly empty) group for the empty input. -/
def splitLinesChars : List Char → List (List Char)
  | [] => [[]]
  | c :: cs =>
    match splitLinesChars cs with
    | [] => [[]]
    | g :: gs => if c = '\n' then [] :: g :: gs else (c :: g) :: gs

/-- Python `s.split("\n")`. -/
def splitLines (s : String) : List String :=
  (splitLinesChars s.data).map (fun l => ⟨l⟩)

/-- Python `s.replace(pat, rep)` (all occurrences, left to right) on character lists,
with a fuel argument (structural recursion on the fuel; any fuel at least the length of
the input gives the replacement).  An empty pattern leaves the input unchanged; the
source only uses the non-empty pattern `Device:`. -/
def replaceAllCharsAux (pat rep : List Char) : Nat → List Char → List Char
  | _, [] => []
  | 0, l => l
  | fuel + 1, c :: cs =>
    if isPrefixCharList pat (c :: cs) && !pat.isEmpty then
      rep ++ replaceAllCharsAux pat rep fuel (List.drop (pat.length - 1) cs)
    else
      c :: replaceAllCharsAux pat rep fuel cs

/-- Python `s.replace(pat, rep)`. -/
def strReplaceAll (s pat rep : String) : String :=
  ⟨replaceAllCharsAux pat.data rep.data s.data.length s.data⟩

/-- Code-point lexicographic order on character lists: how Python compares the
backup filenames when `sorted` is applied to them. -/
def charListLe : List Char → List Char → Bool
  | [], _ => true
  | _ :: _, [] => false
  | a :: as, b :: bs =>
    if a.toNat < b.toNat then true
    else if b.toNat < a.toNat then false
    else charListLe as bs

/-- Python string `<=` (lexicographic by code point). -/
def strLe (a b : String) : Bool :=
  charListLe a.data b.data

/-- Insert a filename into a list sorted by `strLe`. -/
def insertSorted (x : String) : List String → List String
  | [] => [x]
  | y :: ys => if strLe x y then x :: y :: ys else y :: insertSorted x ys

/-- Python `sorted` on filenames: returns the input reordered ascending by `strLe`
(insertion sort; any sorting algorithm yields this same list on distinct filenames). -/
def sortFiles : List String → List String
  | [] => []
  | x :: xs => insertSorted x (sortFiles xs)

/-- The mutable state of `WiFiReorderApp`: the edited list `networks`, the as-loaded
list `original_networks`, the reorder-mode flag, the pending-removal index, and the
`ListView` selection index (`none` when the list view has no selection). -/
structure AppState where
  networks : List String
  original_networks : List String
  reorder_mode : Bool
  pending_removal_index : Option Nat
  index : Option Nat
deriving DecidableEq

/-- `update_status`: the status text computed from the current state, in priority order
pending-removal prompt, reorder indicator, unsaved-changes warning, no-changes note.
The pending branch reads `self.networks[self.pending_removal_index]`; the result is
`none` exactly when that read is out of bounds, which in Python raises `IndexError`. -/
def update_status_message (s : AppState) : Option String :=
  match s.pending_removal_index with
  | some i =>
    (s.networks[i]?).map
      (fun name => "Remove " ++ name ++ "? Press c to confirm, any other key to cancel")
  | none =>
    if s.reorder_mode then
      some "REORDER MODE: Use arrows or k/j to move network. Press SPACE to exit"
    else if s.networks ≠ s.original_networks then
      some "Changes not saved! Press s to save or q to quit without saving."
    else
      some "No changes made. Press SPACE to reorder, r to remove networks."

/-- Simultaneous Python tuple assignment `l[i], l[j] = l[j], l[i]`:
position `i` receives the old value at `j` and position `j` the old value at `i`. -/
def listSwap (l : List String) (i j : Nat) : List String :=
  (l.set i (l.getD j "")).set j (l.getD i "")

/-- `action_move_up`: no-op when nothing is selected or the selection is at index 0;
otherwise swap the selected element with its predecessor and move the selection up. -/
def action_move_up (s : AppState) : AppState :=
  match s.index with
  | none => s
  | some idx =>
    if idx = 0 then s
    else { s with networks := listSwap s.networks idx (idx - 1), index := some (idx - 1) }

/-- `action_move_down`: no-op when nothing is selected or the selection is at the last
index (in Python, `idx >= len(networks) - 1`); otherwise swap the selected element with
its successor and move the selection down. -/
def action_move_down (s : AppState) : AppState :=
  match s.index with
  | none => s
  | some idx =>
    if s.networks.length - 1 ≤ idx then s
    else { s with networks := listSwap s.networks idx (idx + 1), index := some (idx + 1) }

/-- List-and-cursor effect of `_remove_network`.  The index is a Python `int`, so it may
be negative; the guard `0 <= index < len(networks)` makes any out-of-range index a
silent no-op.  In bounds, the element is deleted and the selection becomes
`min(index, len(networks) - 1)` over the shortened list, or `none` when the list
becomes empty. -/
def remove_network (networks : List String) (cursor : Option Nat) (index : Int) :
    List String × Option Nat :=
  if 0 ≤ index ∧ index < (networks.length : Int) then
    (networks.eraseIdx index.toNat,
     if networks.eraseIdx index.toNat = [] then none
     else some (min index.toNat ((networks.eraseIdx index.toNat).length - 1)))
  else
    (networks, cursor)

/-- The `update_status()` call at the end of `_remove_network`, as it runs during a
confirmed removal: `pending_removal_index` is still set to the captured index while
`networks` has already been shortened.  Result `none` means no status read happens
(the out-of-bounds guard skipped the whole body); `some r` means `update_status` ran
and its indexed read of the list produced `r` (`r = none` is an `IndexError`). -/
def remove_network_status_read (s : AppState) (index : Int) : Option (Option String) :=
  if 0 ≤ index ∧ index < (s.networks.length : Int) then
    let r := remove_network s.networks s.index index
    some (update_status_message { s with networks := r.1, index := r.2 })
  else
    none

/-- The state after the in-bounds pop/rebuild of `_remove_network`, immediately before
its trailing `update_status()` call: the list is shortened and the selection recomputed,
while `pending_removal_index` is untouched (it is cleared only by `on_key`, after
`_remove_network` returns). -/
def removedState (s : AppState) (index : Int) : AppState :=
  { s with
    networks := (remove_network s.networks s.index index).1,
    index := (remove_network s.networks s.index index).2 }

/-- Full `_remove_network` as executed at its one call site: for an in-bounds index the
element is popped and then `update_status()` runs while `pending_removal_index` still
holds the captured index; `Except.ok` is normal completion, and `Except.error` is the
`IndexError` raised inside that `update_status` call when its list read is out of
bounds, carrying the state at the raise (element already popped, pending index still
set).  An out-of-bounds index skips the whole body, status call included. -/
def remove_network_full (s : AppState) (index : Int) : Except AppState AppState :=
  if 0 ≤ index ∧ index < (s.networks.length : Int) then
    if update_status_message (removedState s index) = none then
      Except.error (removedState s index)
    else
      Except.ok (removedState s index)
  else
    Except.ok s

/-- The app state at the end of a key event, whether the handler completed normally or
raised out of `_remove_network`. -/
def resultState : Except AppState AppState → AppState
  | Except.ok s => s
  | Except.error s => s

/-- `on_key`: a pending removal intercepts every key, the confirm key `c` committing
`_remove_network` at the captured index and all other keys cancelling; the pending
index is cleared only after `_remove_network` returns, so an `IndexError` raised inside
it propagates with the pending index still set.  With no pending removal, reorder mode
turns the navigation keys into move operations (which never raise). -/
def on_key (s : AppState) (key : String) : Except AppState AppState :=
  match s.pending_removal_index with
  | some pi =>
    if key = "c" then
      match remove_network_full s (pi : Int) with
      | Except.ok s2 => Except.ok { s2 with pending_removal_index := none }
      | Except.error s2 => Except.error s2
    else
      Except.ok { s with pending_removal_index := none }
  | none =>
    if s.reorder_mode then
      if key = "up" ∨ key = "k" then Except.ok (action_move_up s)
      else if key = "down" ∨ key = "j" then Except.ok (action_move_down s)
      else Except.ok s
    else Except.ok s

/-- Result of one external `networksetup` invocation (`subprocess.run`). -/
structure ExecResult where
  returncode : Int
  stdoutText : String
  stderrText : String
deriving DecidableEq

/-- Externally visible side effects of a save: the backup file write (carrying the
network list written to it) and the two mutating `networksetup` commands. -/
inductive SEvent where
  | backup (networks : List String)
  | removeCmd (interface : String) (network : String)
  | addCmd (interface : String) (network : String)
deriving DecidableEq

/-- An event that mutates the external preferred-network store. -/
def SEvent.isMutating : SEvent → Bool
  | .backup _ => false
  | .removeCmd _ _ => true
  | .addCmd _ _ => true

/-- An event that writes the backup file. -/
def SEvent.isBackupWrite : SEvent → Bool
  | .backup _ => true
  | .removeCmd _ _ => false
  | .addCmd _ _ => false

/-- The `changed_indices` set of `_apply_network_priority`: positions `i` of the edited
list where `i >= len(original)` or `original[i] != networks[i]`. -/
def changed_indices (original networks : List String) : List Nat :=
  (List.range networks.length).filter
    (fun i => decide (original.length ≤ i) || decide (original.getD i "" ≠ networks.getD i ""))

/-- The networks sitting at changed positions (`networks[i]` for `i` in
`changed_indices`). -/
def changedNetworks (original networks : List String) : List String :=
  (changed_indices original networks).map (fun i => networks.getD i "")

/-- `removed_networks`: networks present in `original` but absent from the edited
list. -/
def removedNetworks (original networks : List String) : List String :=
  original.filter (fun n => decide (n ∉ networks))

/-- `networks_to_modify`: the networks that changed position united with those that
were removed.  The source builds a Python set; only membership in this list matters. -/
def networks_to_modify (original networks : List String) : List String :=
  changedNetworks original networks ++ removedNetworks original networks

/-- Error-message selection after a failed add: the stripped stderr if stderr is
non-empty, else the stripped stdout, else a generic message naming the exit code. -/
def error_msg (r : ExecResult) : String :=
  let base := if r.stderrText ≠ "" then pyStrip r.stderrText else pyStrip r.stdoutText
  if base = "" then "Command failed with exit code " ++ toString r.returncode else base

/-- One iteration of the re-add loop of `_apply_network_priority`: issue the
add-at-index-0 command for `n` and, if its exit code is non-zero, append
`(n, error text)` to `failed_networks`; the loop is never aborted. -/
def add_step (interface : String) (exec : String → ExecResult)
    (acc : List SEvent × List (String × String)) (n : String) :
    List SEvent × List (String × String) :=
  if (exec n).returncode ≠ 0 then
    (acc.1 ++ [SEvent.addCmd interface n], acc.2 ++ [(n, error_msg (exec n))])
  else
    (acc.1 ++ [SEvent.addCmd interface n], acc.2)

/-- The re-add loop of `_apply_network_priority` (`for network in reversed(networks)`):
issues one add-at-index-0 command per network and collects `failed_networks`.
`exec` gives the result of the add command for each network. -/
def add_loop (networks : List String) (interface : String) (exec : String → ExecResult) :
    List SEvent × List (String × String) :=
  networks.reverse.foldl (add_step interface exec) ([], [])

/-- Outcome of the save flow as surfaced to the user. -/
inductive SaveResult where
  | noChanges
  | backupError
  | success
  | addFailures (failed : List (String × String))
deriving DecidableEq

/-- `_apply_network_priority`: compute `networks_to_modify`; if empty, report success
without issuing any command; otherwise issue one remove command per network to modify
(exit codes ignored), then run the re-add loop over the edited list in reverse, and
report the aggregate add failures if any occurred, success otherwise. -/
def apply_network_priority (original networks : List String) (interface : String)
    (exec : String → ExecResult) : SaveResult × List SEvent :=
  let ms := networks_to_modify original networks
  if ms = [] then
    (SaveResult.success, [])
  else
    let added := add_loop networks interface exec
    (if added.2 = [] then SaveResult.success else SaveResult.addFailures added.2,
     ms.map (SEvent.removeCmd interface) ++ added.1)

/-- `action_save` together with the thread body it spawns: an unchanged list returns the
no-changes result immediately; otherwise the backup of `original_networks` is written
first (`backupOk = false` modelling `BackupWriteError`, which aborts the save before
any command), and only then does `_apply_network_priority` run. -/
def action_save (s : AppState) (interface : String) (backupOk : Bool)
    (exec : String → ExecResult) : SaveResult × List SEvent :=
  if s.networks = s.original_networks then
    (SaveResult.noChanges, [])
  else if backupOk = false then
    (SaveResult.backupError, [])
  else
    let r := apply_network_priority s.original_networks s.networks interface exec
    (r.1, SEvent.backup s.original_networks :: r.2)

/-- Modelled from the spec: the external preferred-network store keeps at most one
entry per network name, and the add-at-index-0 command inserts the name at the top,
displacing any existing entry for that name (section 6, Add command; the source relies
on this when it re-adds unchanged networks to force the final order). -/
def addAtTop (store : List String) (n : String) : List String :=
  n :: store.erase n

/-- Modelled from the spec: the remove command deletes the named network from the
store; removing an absent name is tolerated (exit code advisory only). -/
def removeFromStore (store : List String) (n : String) : List String :=
  store.erase n

/-- Net effect of `_apply_network_priority` on the persisted preferred-network store,
assuming the store initially holds exactly `original`: either nothing (empty
`networks_to_modify`) or the removals followed by the reversed add-at-top loop. -/
def apply_network_priority_store (original networks : List String) : List String :=
  if networks_to_modify original networks = [] then original
  else
    networks.reverse.foldl addAtTop
      ((networks_to_modify original networks).foldl removeFromStore original)

/-- Retention step of `_backup_networks`: sort the backup directory by filename and
delete every file except the last 10 (`backups[:-10]` are unlinked); the result is the
list of files kept, in filename order. -/
def prune_backups (files : List String) : List String :=
  (sortFiles files).drop ((sortFiles files).length - 10)

/-- Backup-directory contents after one `_backup_networks` call that wrote `newFile`. -/
def backup_step (files : List String) (newFile : String) : List String :=
  prune_backups (files ++ [newFile])

/-- A line naming the wireless adapter in the hardware-ports output. -/
def markerLine (line : String) : Bool :=
  strContains line "Wi-Fi" || strContains line "AirPort"

/-- Scan loop of `detect_wifi_interface`: at each line containing a wireless-adapter
marker, if the immediately following line starts with `Device:`, return that line with
the `Device:` text removed and stripped; otherwise keep scanning; fall back to `en0`. -/
def detect_loop : List String → String
  | [] => "en0"
  | line :: rest =>
    if markerLine line then
      match rest with
      | [] => "en0"
      | next :: _ =>
        if strStartsWith next "Device:" then pyStrip (strReplaceAll next "Device:" "")
        else detect_loop rest
    else detect_loop rest

/-- `detect_wifi_interface` applied to the stdout of the hardware-ports query. -/
def detect_wifi_interface (stdout : String) : String :=
  detect_loop (splitLines stdout)

/-- Positions of the hardware-ports output at which a wireless-adapter marker line is
immediately followed by a `Device:` line. -/
def devicePairAt (lines : List String) (i : Nat) : Prop :=
  markerLine (lines.getD i "") = true ∧ i + 1 < lines.length ∧
    strStartsWith (lines.getD (i + 1) "") "Device:" = true

theorem remove_network_fst (networks : List String) (cursor : Option Nat) (pi : Nat) :
    (remove_network networks cursor (pi : Int)).1 = networks.eraseIdx pi := by
  unfold remove_network
  by_cases h : pi < networks.length
  · have hg : (0 : Int) ≤ (pi : Int) ∧ (pi : Int) < (networks.length : Int) := by
      constructor <;> omega
    simp [hg]
  · have hlen : networks.length ≤ pi := Nat.le_of_not_lt h
    have hg : ¬ ((0 : Int) ≤ (pi : Int) ∧ (pi : Int) < (networks.length : Int)) := by
      rintro ⟨-, hlt⟩
      omega
    simp [hg, h, List.eraseIdx_eq_self.mpr hlen]

/-- C2: if the edited list equals the as-loaded list, saving returns the no-changes
result immediately with an empty event trace: no backup file is written and no external
remove or add command is issued. -/
theorem C2_unchanged_save_is_noop (s : AppState) (interface : String) (backupOk : Bool)
    (exec : String → ExecResult) (h : s.networks = s.original_networks) :
    action_save s interface backupOk exec = (SaveResult.noChanges, []) := by
  simp [action_save, h]

theorem C2_unchanged_save_is_noop_witness :
    action_save ⟨["A", "B"], ["A", "B"], false, none, some 0⟩ "en0" true
        (fun _ => ⟨0, "", ""⟩)
      = (SaveResult.noChanges, []) :=
  C2_unchanged_save_is_noop _ "en0" true _ rfl

theorem resultState_remove_network_full (s : AppState) (i : Int) :
    (resultState (remove_network_full s i)).networks = (remove_network s.networks s.index i).1 ∧
    (resultState (remove_network_full s i)).original_networks = s.original_networks := by
  unfold remove_network_full
  by_cases hb : 0 ≤ i ∧ i < (s.networks.length : Int)
  · rw [if_pos hb]
    by_cases hn : update_status_message (removedState s i) = none
    · rw [if_pos hn]
      exact ⟨rfl, rfl⟩
    · rw [if_neg hn]
      exact ⟨rfl, rfl⟩
  · rw [if_neg hb]
    unfold remove_network
    rw [if_neg hb]
    exact ⟨rfl, rfl⟩

/-- C5: while a removal is pending at the captured index, every key other than the
confirmation key `c` completes normally and only clears the pending mode, leaving the
list untouched; the key `c` removes exactly the element at the captured index
(independent of the live cursor) — this holds whether the handler completes or the
trailing status update raises, and on every normal completion the pending mode is
cleared.  (The raising path itself, reached exactly at last-index removals, is the bug
recorded under C6 and C10.) -/
theorem C5_pending_removal_keys (s : AppState) (key : String) (pi : Nat)
    (h : s.pending_removal_index = some pi) :
    (key ≠ "c" → on_key s key = Except.ok { s with pending_removal_index := none }) ∧
    (key = "c" →
      (resultState (on_key s key)).networks = s.networks.eraseIdx pi ∧
      (resultState (on_key s key)).original_networks = s.original_networks ∧
      (∀ s2 : AppState, on_key s key = Except.ok s2 →
        s2.pending_removal_index = none)) := by
  constructor
  · intro hk
    simp [on_key, h, hk]
  · intro hk
    subst hk
    have hl := resultState_remove_network_full s (pi : Int)
    cases hfull : remove_network_full s (pi : Int) with
    | error s2 =>
      have hon : on_key s "c" = Except.error s2 := by
        simp [on_key, h, hfull]
      rw [hfull] at hl
      refine ⟨?_, ?_, ?_⟩
      · rw [hon]
        exact hl.1.trans (remove_network_fst s.networks s.index pi)
      · rw [hon]
        exact hl.2
      · intro s3 hok
        rw [hon] at hok
        exact absurd hok (by simp)
    | ok s2 =>
      have hon : on_key s "c" = Except.ok { s2 with pending_removal_index := none } := by
        simp [on_key, h, hfull]
      rw [hfull] at hl
      refine ⟨?_, ?_, ?_⟩
      · rw [hon]
        exact hl.1.trans (remove_network_fst s.networks s.index pi)
      · rw [hon]
        exact hl.2
      · intro s3 hok
        rw [hon] at hok
        cases hok
        rfl

theorem C5_pending_removal_keys_witness :
    on_key ⟨["A", "B"], ["A", "B"], false, some 1, some 0⟩ "x"
        = Except.ok ⟨["A", "B"], ["A", "B"], false, none, some 0⟩ ∧
    (resultState (on_key ⟨["A", "B"], ["A", "B"], false, some 0, some 0⟩ "c")).networks
        = ["B"] := by
  constructor
  · exact (C5_pending_removal_keys ⟨["A", "B"], ["A", "B"], false, some 1, some 0⟩ "x" 1 rfl).1
      (by decide)
  · exact ((C5_pending_removal_keys ⟨["A", "B"], ["A", "B"], false, some 0, some 0⟩ "c" 0 rfl).2
      rfl).1

/-- C6: the claim says `removeAt` never raises for any index, but `_remove_network`
ends with an `update_status()` call made while `pending_removal_index` still holds the
captured index, so for every in-bounds last index (`pi + 1 = len`) the status read
indexes the just-shortened list out of bounds and raises `IndexError` — with the
element already popped and the pending index still set; concretely, removing the only
network raises. -/
theorem C6_remove_network_last_index_raises :
    (∀ (s : AppState) (pi : Nat), s.pending_removal_index = some pi →
        pi + 1 = s.networks.length →
        remove_network_full s (pi : Int) = Except.error (removedState s (pi : Int)) ∧
        (removedState s (pi : Int)).networks = s.networks.eraseIdx pi ∧
        (removedState s (pi : Int)).pending_removal_index = some pi) ∧
    remove_network_full ⟨["HomeNet"], ["HomeNet"], false, some 0, some 0⟩ 0
      = Except.error ⟨[], ["HomeNet"], false, some 0, none⟩ := by
  constructor
  · intro s pi hpend hlast
    have hb : 0 ≤ (pi : Int) ∧ (pi : Int) < (s.networks.length : Int) := by
      constructor <;> omega
    have hnets : (removedState s (pi : Int)).networks = s.networks.eraseIdx pi := by
      unfold removedState
      exact remove_network_fst s.networks s.index pi
    have hlen : ((removedState s (pi : Int)).networks).length = pi := by
      rw [hnets, List.length_eraseIdx]
      simp only [show pi < s.networks.length by omega, if_pos]
      omega
    have hpend2 : (removedState s (pi : Int)).pending_removal_index = some pi := by
      unfold removedState
      exact hpend
    have hge : ((removedState s (pi : Int)).networks)[pi]? = none :=
      List.getElem?_eq_none (by omega)
    have hnone : update_status_message (removedState s (pi : Int)) = none := by
      unfold update_status_message
      rw [hpend2]
      show Option.map
          (fun name => "Remove " ++ name ++ "? Press c to confirm, any other key to cancel")
          ((removedState s (pi : Int)).networks)[pi]? = none
      rw [hge]
      rfl
    refine ⟨?_, hnets, hpend2⟩
    unfold remove_network_full
    rw [if_pos hb, if_pos hnone]
  · rfl

theorem C6_remove_network_last_index_raises_witness :
    remove_network_full ⟨["X", "HomeNet"], ["X", "HomeNet"], false, some 1, some 1⟩ 1
      = Except.error
          (removedState ⟨["X", "HomeNet"], ["X", "HomeNet"], false, some 1, some 1⟩ 1) :=
  ((C6_remove_network_last_index_raises).1
    ⟨["X", "HomeNet"], ["X", "HomeNet"], false, some 1, some 1⟩ 1 rfl (by decide)).1

/-- C10: confirming the removal of the last-positioned network makes the status
recomputation read past the end of the just-shortened list.  With the one-element list
`["HomeNet"]` and captured index 0, `_remove_network` pops the element and then calls
`update_status` while `pending_removal_index` is still 0, so the status code reads
index 0 of the now-empty list: the read happens (`some`) and is out of bounds
(`none`), an `IndexError` in Python. -/
theorem C10_confirmed_removal_status_read_oob :
    remove_network_status_read ⟨["HomeNet"], ["HomeNet"], false, some 0, some 0⟩ 0
      = some none := by
  decide

/-- C3: in every save invocation, any mutating external command in the event trace is
preceded by a successful backup write, and a failed backup write (`BackupWriteError`)
aborts the save with an empty trace — the external store is completely untouched — and
surfaces the backup error whenever there was anything to save. -/
theorem C3_backup_before_mutation (s : AppState) (interface : String) (backupOk : Bool)
    (exec : String → ExecResult) :
    (∀ (i : Nat) (e : SEvent), ((action_save s interface backupOk exec).2)[i]? = some e →
        e.isMutating = true →
        ∃ (j : Nat) (e2 : SEvent), j < i ∧
          ((action_save s interface backupOk exec).2)[j]? = some e2 ∧
          e2.isBackupWrite = true) ∧
    (backupOk = false →
      (action_save s interface backupOk exec).2 = [] ∧
      (s.networks ≠ s.original_networks →
        (action_save s interface backupOk exec).1 = SaveResult.backupError)) := by
  by_cases h1 : s.networks = s.original_networks
  · constructor
    · intro i e he _
      rw [show (action_save s interface backupOk exec).2 = [] by simp [action_save, h1]]
        at he
      obtain ⟨hlt, -⟩ := List.getElem?_eq_some_iff.mp he
      exact absurd hlt (by simp)
    · intro _
      refine ⟨by simp [action_save, h1], fun hne => absurd h1 hne⟩
  · by_cases h2 : backupOk = false
    · constructor
      · intro i e he _
        rw [show (action_save s interface backupOk exec).2 = [] by
          simp [action_save, h1, h2]] at he
        obtain ⟨hlt, -⟩ := List.getElem?_eq_some_iff.mp he
        exact absurd hlt (by simp)
      · intro _
        exact ⟨by simp [action_save, h1, h2], fun _ => by simp [action_save, h1, h2]⟩
    · have htr : (action_save s interface backupOk exec).2
          = SEvent.backup s.original_networks
            :: (apply_network_priority s.original_networks s.networks interface exec).2 := by
        simp [action_save, h1, h2]
      constructor
      · intro i e he hm
        cases i with
        | zero =>
          rw [htr] at he
          simp only [List.getElem?_cons_zero, Option.some.injEq] at he
          rw [← he] at hm
          simp [SEvent.isMutating] at hm
        | succ k =>
          refine ⟨0, SEvent.backup s.original_networks, Nat.succ_pos k, ?_, rfl⟩
          rw [htr]
          simp
      · intro hf
        exact absurd hf h2

theorem C3_backup_before_mutation_witness :
    ∃ j e2, j < 1 ∧
      ((action_save ⟨["B", "A"], ["A", "B"], false, none, some 0⟩ "en0" true
          (fun _ => ⟨0, "", ""⟩)).2)[j]? = some e2 ∧
      e2.isBackupWrite = true :=
  (C3_backup_before_mutation ⟨["B", "A"], ["A", "B"], false, none, some 0⟩ "en0" true
      (fun _ => ⟨0, "", ""⟩)).1 1 (SEvent.removeCmd "en0" "B") (by decide) (by decide)

theorem add_loop_foldl (interface : String) (exec : String → ExecResult) :
    ∀ (l : List String) (acc : List SEvent × List (String × String)),
      l.foldl (add_step interface exec) acc
        = (acc.1 ++ l.map (SEvent.addCmd interface),
           acc.2 ++ (l.filter (fun n => decide ((exec n).returncode ≠ 0))).map
             (fun n => (n, error_msg (exec n)))) := by
  intro l
  induction l with
  | nil => intro acc; simp
  | cons n l ih =>
    intro acc
    by_cases h : (exec n).returncode ≠ 0
    · simp [add_step, h, ih]
    · simp [add_step, h, ih]

/-- C4: in the re-add loop, one add command is issued for every network of the edited
list (in reverse order) regardless of failures, `failed_networks` collects exactly the
networks whose add exited non-zero together with their error text, and whenever the
loop runs (a non-empty `networks_to_modify`) the save reports the aggregate add
failures if and only if at least one add failed, reporting success otherwise. -/
theorem C4_add_failures_aggregated (original networks : List String) (interface : String)
    (exec : String → ExecResult) :
    (add_loop networks interface exec).1
        = networks.reverse.map (SEvent.addCmd interface) ∧
    (add_loop networks interface exec).2
        = (networks.reverse.filter (fun n => decide ((exec n).returncode ≠ 0))).map
            (fun n => (n, error_msg (exec n))) ∧
    (networks_to_modify original networks ≠ [] →
      (apply_network_priority original networks interface exec).1
        = (if (add_loop networks interface exec).2 = [] then SaveResult.success
           else SaveResult.addFailures (add_loop networks interface exec).2)) := by
  refine ⟨?_, ?_, ?_⟩
  · rw [add_loop, add_loop_foldl]
    simp
  · rw [add_loop, add_loop_foldl]
    simp
  · intro hms
    simp [apply_network_priority, hms]

theorem C4_add_failures_aggregated_witness :
    (apply_network_priority ["A", "B"] ["B", "A"] "en0"
        (fun n => if n = "B" then ⟨1, "", "bad password"⟩ else ⟨0, "", ""⟩)).1
      = (if (add_loop ["B", "A"] "en0"
              (fun n => if n = "B" then ⟨1, "", "bad password"⟩ else ⟨0, "", ""⟩)).2 = []
         then SaveResult.success
         else SaveResult.addFailures
           (add_loop ["B", "A"] "en0"
             (fun n => if n = "B" then ⟨1, "", "bad password"⟩ else ⟨0, "", ""⟩)).2) :=
  (C4_add_failures_aggregated ["A", "B"] ["B", "A"] "en0"
      (fun n => if n = "B" then ⟨1, "", "bad password"⟩ else ⟨0, "", ""⟩)).2.2 (by decide)

theorem getD_set_self (l : List String) (i : Nat) (d : String) :
    l.set i (l.getD i d) = l := by
  induction l generalizing i with
  | nil => simp
  | cons a l ih =>
    cases i with
    | zero => simp
    | succ k =>
      show a :: l.set k (l.getD k d) = a :: l
      rw [ih]

theorem getD_set_same (l : List String) (i : Nat) (a d : String) (h : i < l.length) :
    (l.set i a).getD i d = a := by
  induction l generalizing i with
  | nil => simp at h
  | cons x l ih =>
    cases i with
    | zero => simp
    | succ k =>
      simp only [List.length_cons, Nat.succ_lt_succ_iff] at h
      show (l.set k a).getD k d = a
      exact ih _ h

theorem getD_set_other (l : List String) (i j : Nat) (a d : String) (h : i ≠ j) :
    (l.set i a).getD j d = l.getD j d := by
  rw [List.getD_eq_getElem?_getD, List.getD_eq_getElem?_getD, List.getElem?_set_ne h]

theorem listSwap_length (l : List String) (i j : Nat) :
    (listSwap l i j).length = l.length := by
  simp [listSwap]

theorem listSwap_comm (l : List String) (i j : Nat) (h : i ≠ j) :
    listSwap l i j = listSwap l j i := by
  unfold listSwap
  exact List.set_comm _ _ _ h

theorem listSwap_listSwap (l : List String) (i j : Nat) (hij : i ≠ j)
    (hi : i < l.length) (hj : j < l.length) :
    listSwap (listSwap l i j) i j = l := by
  have h1 : (listSwap l i j).getD j "" = l.getD i "" := by
    unfold listSwap
    exact getD_set_same _ _ _ _ (by simpa using hj)
  have h2 : (listSwap l i j).getD i "" = l.getD j "" := by
    unfold listSwap
    rw [getD_set_other _ _ _ _ _ (Ne.symm hij)]
    exact getD_set_same _ _ _ _ hi
  show (((listSwap l i j)).set i ((listSwap l i j).getD j "")).set j ((listSwap l i j).getD i "")
      = l
  rw [h1, h2]
  unfold listSwap
  rw [List.set_comm (l.getD i "") (l.getD i "") (l.set i (l.getD j "")) (Ne.symm hij)]
  rw [List.set_set, List.set_set, getD_set_self, getD_set_self]

/-- C7: moving the selected element up and then moving the same (now higher) element
down restores the state exactly (list and selection); at the boundaries — no selection,
selection at index 0 for move-up, selection at the last index for move-down — the
boundary operation is a no-op rather than an error. -/
theorem C7_move_up_then_down_restores (s : AppState) :
    (∀ i : Nat, s.index = some i → 0 < i → i < s.networks.length →
        action_move_down (action_move_up s) = s) ∧
    (s.index = none → action_move_up s = s ∧ action_move_down s = s) ∧
    (s.index = some 0 → action_move_up s = s) ∧
    (∀ i : Nat, s.index = some i → s.networks.length - 1 ≤ i → action_move_down s = s) := by
  obtain ⟨nets, orig, rm, pend, idx⟩ := s
  refine ⟨?_, ?_, ?_, ?_⟩
  · intro i hidx h0 hlen
    simp only at hidx hlen
    subst hidx
    have hne : ¬ i = 0 := by omega
    have hup : action_move_up ⟨nets, orig, rm, pend, some i⟩
        = ⟨listSwap nets i (i - 1), orig, rm, pend, some (i - 1)⟩ := by
      simp [action_move_up, hne]
    rw [hup]
    have hcond : ¬ ((listSwap nets i (i - 1)).length - 1 ≤ i - 1) := by
      rw [listSwap_length]
      omega
    have hdown : action_move_down ⟨listSwap nets i (i - 1), orig, rm, pend, some (i - 1)⟩
        = ⟨listSwap (listSwap nets i (i - 1)) (i - 1) (i - 1 + 1), orig, rm, pend,
            some (i - 1 + 1)⟩ := by
      simp [action_move_down, hcond]
    rw [hdown]
    have hi1 : i - 1 + 1 = i := by omega
    rw [hi1]
    have hswap : listSwap (listSwap nets i (i - 1)) (i - 1) i = nets := by
      rw [listSwap_comm _ _ _ (by omega)]
      exact listSwap_listSwap _ _ _ (by omega) hlen (by omega)
    rw [hswap]
  · intro hidx
    simp only at hidx
    subst hidx
    constructor <;> rfl
  · intro hidx
    simp only at hidx
    subst hidx
    simp [action_move_up]
  · intro i hidx hlast
    simp only at hidx hlast
    subst hidx
    simp [action_move_down, hlast]

theorem C7_move_up_then_down_restores_witness :
    action_move_down (action_move_up ⟨["A", "B", "C"], ["A", "B", "C"], false, none, some 1⟩)
      = ⟨["A", "B", "C"], ["A", "B", "C"], false, none, some 1⟩ :=
  (C7_move_up_then_down_restores ⟨["A", "B", "C"], ["A", "B", "C"], false, none, some 1⟩).1
    1 rfl (by decide) (by decide)

theorem charListLe_total : ∀ a b : List Char, charListLe a b = true ∨ charListLe b a = true
  | [], _ => Or.inl rfl
  | _ :: _, [] => Or.inr rfl
  | a :: as, b :: bs => by
    by_cases h1 : a.toNat < b.toNat
    · left
      simp [charListLe, h1]
    · by_cases h2 : b.toNat < a.toNat
      · right
        simp [charListLe, h2]
      · rcases charListLe_total as bs with h | h
        · left
          simp [charListLe, h1, h2, h]
        · right
          simp [charListLe, h1, h2, h]

theorem charListLe_trans : ∀ a b c : List Char,
    charListLe a b = true → charListLe b c = true → charListLe a c = true
  | [], _, _ => by
    intro _ _
    rfl
  | _ :: _, [], _ => by
    intro h _
    simp [charListLe] at h
  | _ :: _, _ :: _, [] => by
    intro _ h
    simp [charListLe] at h
  | a :: as, b :: bs, c :: cs => by
    intro h1 h2
    simp only [charListLe] at h1 h2 ⊢
    by_cases hab : a.toNat < b.toNat
    · by_cases hbc : b.toNat < c.toNat
      · simp [show a.toNat < c.toNat by omega]
      · by_cases hcb : c.toNat < b.toNat
        · simp [hbc, hcb] at h2
        · simp [show a.toNat < c.toNat by omega]
    · by_cases hba : b.toNat < a.toNat
      · simp [hab, hba] at h1
      · simp only [if_neg hab, if_neg hba] at h1
        by_cases hbc : b.toNat < c.toNat
        · simp [show a.toNat < c.toNat by omega]
        · by_cases hcb : c.toNat < b.toNat
          · simp [hbc, hcb] at h2
          · simp only [if_neg hbc, if_neg hcb] at h2
            simp only [if_neg (show ¬ a.toNat < c.toNat by omega),
              if_neg (show ¬ c.toNat < a.toNat by omega)]
            exact charListLe_trans as bs cs h1 h2

theorem strLe_total (a b : String) : strLe a b = true ∨ strLe b a = true :=
  charListLe_total a.data b.data

theorem strLe_trans {a b c : String} (h1 : strLe a b = true) (h2 : strLe b c = true) :
    strLe a c = true :=
  charListLe_trans a.data b.data c.data h1 h2

theorem mem_insertSorted (x y : String) :
    ∀ l : List String, y ∈ insertSorted x l ↔ y = x ∨ y ∈ l
  | [] => by simp [insertSorted]
  | z :: zs => by
    by_cases h : strLe x z
    · simp only [insertSorted, if_pos h, List.mem_cons]
    · simp only [insertSorted, if_neg h, List.mem_cons, mem_insertSorted x y zs]
      tauto

theorem insertSorted_perm (x : String) : ∀ l : List String, (insertSorted x l).Perm (x :: l)
  | [] => List.Perm.refl _
  | z :: zs => by
    by_cases h : strLe x z
    · simp [insertSorted, h]
    · simp only [insertSorted, if_neg h]
      exact ((insertSorted_perm x zs).cons z).trans (List.Perm.swap x z zs)

theorem sortFiles_perm : ∀ l : List String, (sortFiles l).Perm l
  | [] => List.Perm.refl _
  | x :: xs => (insertSorted_perm x (sortFiles xs)).trans ((sortFiles_perm xs).cons x)

theorem pairwise_insertSorted (x : String) (l : List String)
    (h : l.Pairwise (fun a b => strLe a b = true)) :
    (insertSorted x l).Pairwise (fun a b => strLe a b = true) := by
  induction l with
  | nil => simp [insertSorted]
  | cons z zs ih =>
    rcases List.pairwise_cons.mp h with ⟨hz, hzs⟩
    by_cases hx : strLe x z
    · simp only [insertSorted, if_pos hx]
      refine List.pairwise_cons.mpr ⟨?_, h⟩
      intro b hb
      rcases List.mem_cons.mp hb with rfl | hbzs
      · exact hx
      · exact strLe_trans hx (hz b hbzs)
    · simp only [insertSorted, if_neg hx]
      refine List.pairwise_cons.mpr ⟨?_, ih hzs⟩
      intro b hb
      rcases (mem_insertSorted x b zs).mp hb with heq | hbzs
      · subst heq
        rcases strLe_total b z with h1 | h1
        · exact absurd h1 hx
        · exact h1
      · exact hz b hbzs

theorem sortFiles_pairwise :
    ∀ l : List String, (sortFiles l).Pairwise (fun a b => strLe a b = true)
  | [] => List.Pairwise.nil
  | x :: xs => pairwise_insertSorted x _ (sortFiles_pairwise xs)

/-- C9: after a backup creation the pruning step keeps at most 10 files — exactly
`min (n+1) 10` of the `n+1` present — and the kept files are a duplicate-free subset of
the files present such that every deleted file sorts at or below every kept file (the
kept set is the 10 greatest in filename order); and 11 successive saves starting from an
empty directory leave exactly the 10 most recent timestamped files, the oldest removed. -/
theorem C9_backup_retention (files : List String) (newFile : String)
    (hnd : (files ++ [newFile]).Nodup) :
    (backup_step files newFile).length = min (files.length + 1) 10 ∧
    (backup_step files newFile).Nodup ∧
    (∀ x ∈ backup_step files newFile, x ∈ files ++ [newFile]) ∧
    (∀ x ∈ files ++ [newFile], x ∉ backup_step files newFile →
      ∀ y ∈ backup_step files newFile, strLe x y = true) ∧
    List.foldl backup_step []
        ["networks_20240101.txt", "networks_20240102.txt", "networks_20240103.txt",
         "networks_20240104.txt", "networks_20240105.txt", "networks_20240106.txt",
         "networks_20240107.txt", "networks_20240108.txt", "networks_20240109.txt",
         "networks_20240110.txt", "networks_20240111.txt"]
      = ["networks_20240102.txt", "networks_20240103.txt", "networks_20240104.txt",
         "networks_20240105.txt", "networks_20240106.txt", "networks_20240107.txt",
         "networks_20240108.txt", "networks_20240109.txt", "networks_20240110.txt",
         "networks_20240111.txt"] := by
  have hperm : (sortFiles (files ++ [newFile])).Perm (files ++ [newFile]) := sortFiles_perm _
  have hlen : (sortFiles (files ++ [newFile])).length = files.length + 1 := by
    rw [hperm.length_eq]
    simp
  refine ⟨?_, ?_, ?_, ?_, ?_⟩
  · simp only [backup_step, prune_backups]
    rw [List.length_drop, hlen]
    omega
  · exact (List.drop_sublist _ _).nodup (hperm.symm.nodup hnd)
  · intro x hx
    exact hperm.subset (List.drop_subset _ _ hx)
  · intro x hxall hxnot y hy
    have hxs : x ∈ sortFiles (files ++ [newFile]) := hperm.symm.subset hxall
    have hsplit := List.take_append_drop
      ((sortFiles (files ++ [newFile])).length - 10) (sortFiles (files ++ [newFile]))
    rw [← hsplit] at hxs
    have hxtake :
        x ∈ List.take ((sortFiles (files ++ [newFile])).length - 10)
          (sortFiles (files ++ [newFile])) := by
      rcases List.mem_append.mp hxs with h | h
      · exact h
      · exact absurd h hxnot
    have hpw := sortFiles_pairwise (files ++ [newFile])
    rw [← hsplit] at hpw
    exact (List.pairwise_append.mp hpw).2.2 x hxtake y hy
  · decide

theorem C9_backup_retention_witness :
    (backup_step ["networks_20240101.txt"] "networks_20240102.txt").length = min 2 10 :=
  (C9_backup_retention ["networks_20240101.txt"] "networks_20240102.txt" (by decide)).1

theorem foldr_addAtTop :
    ∀ (cur store : List String), cur.Nodup → store.Nodup →
      cur.foldr (fun n acc => addAtTop acc n) store
        = cur ++ store.filter (fun x => decide (x ∉ cur)) := by
  intro cur
  induction cur with
  | nil =>
    intro store _ _
    simp
  | cons n rest ih =>
    intro store hnd hsnd
    rcases List.nodup_cons.mp hnd with ⟨hn, hrest⟩
    rw [List.foldr_cons, ih store hrest hsnd]
    unfold addAtTop
    rw [List.cons_append]
    congr 1
    rw [List.erase_append_right _ hn]
    congr 1
    have hfnd : (store.filter (fun x => decide (x ∉ rest))).Nodup := hsnd.filter _
    rw [hfnd.erase_eq_filter, List.filter_filter]
    apply List.filter_congr
    intro x _
    by_cases h1 : x = n
    · simp [h1]
    · by_cases h2 : x ∈ rest
      · simp [h1, h2]
      · simp [h1, h2]

theorem foldl_removeFromStore_nodup :
    ∀ (ms store : List String), store.Nodup → (ms.foldl removeFromStore store).Nodup := by
  intro ms
  induction ms with
  | nil =>
    intro store h
    exact h
  | cons m ms ih =>
    intro store h
    exact ih _ (h.erase m)

theorem mem_foldl_removeFromStore :
    ∀ (ms store : List String), store.Nodup →
      ∀ x : String, x ∈ ms.foldl removeFromStore store ↔ x ∈ store ∧ x ∉ ms := by
  intro ms
  induction ms with
  | nil =>
    intro store _ x
    simp
  | cons m ms ih =>
    intro store hnd x
    rw [List.foldl_cons]
    rw [show removeFromStore store m = store.erase m from rfl] at *
    rw [ih (store.erase m) (hnd.erase m) x, hnd.mem_erase_iff]
    simp only [List.mem_cons]
    tauto

theorem mem_removedNetworks (original networks : List String) (x : String) :
    x ∈ removedNetworks original networks ↔ x ∈ original ∧ x ∉ networks := by
  simp [removedNetworks, List.mem_filter]

theorem networks_to_modify_eq_nil (original networks : List String) (hno : original.Nodup)
    (h : networks_to_modify original networks = []) : networks = original := by
  rw [networks_to_modify, List.append_eq_nil] at h
  obtain ⟨hc, hr⟩ := h
  have hsub : ∀ x ∈ original, x ∈ networks := by
    intro x hx
    by_contra hxn
    have hxm : x ∈ removedNetworks original networks :=
      (mem_removedNetworks _ _ x).mpr ⟨hx, hxn⟩
    rw [hr] at hxm
    exact List.not_mem_nil x hxm
  have hidx : ∀ i, i < networks.length →
      i < original.length ∧ original.getD i "" = networks.getD i "" := by
    intro i hi
    have hci : changed_indices original networks = [] := by
      rw [changedNetworks, List.map_eq_nil_iff] at hc
      exact hc
    have hmem : i ∉ changed_indices original networks := by
      rw [hci]
      exact List.not_mem_nil i
    rw [changed_indices, List.mem_filter] at hmem
    have hcond : ¬ ((decide (original.length ≤ i)
        || decide (original.getD i "" ≠ networks.getD i "")) = true) := by
      intro hb
      exact hmem ⟨List.mem_range.mpr hi, hb⟩
    simp only [Bool.or_eq_true, decide_eq_true_eq, not_or] at hcond
    exact ⟨by omega, by tauto⟩
  have hlen1 : original.length ≤ networks.length := (hno.subperm hsub).length_le
  have hlen2 : networks.length ≤ original.length := by
    rcases Nat.eq_zero_or_pos networks.length with h0 | hpos
    · omega
    · have := (hidx (networks.length - 1) (by omega)).1
      omega
  apply List.ext_getElem?
  intro n
  by_cases hn : n < networks.length
  · have hpair := hidx n hn
    obtain ⟨ho, hd⟩ := hpair
    rw [List.getD_eq_getElem _ _ hn, List.getD_eq_getElem _ _ ho] at hd
    rw [List.getElem?_eq_getElem hn, List.getElem?_eq_getElem ho]
    exact congrArg some hd.symm
  · rw [List.getElem?_eq_none (by omega), List.getElem?_eq_none (by omega)]

/-- C1: assuming the persisted store initially equals `original` and both lists are
duplicate-free, running the removal phase followed by the add-at-index-0 loop over the
edited list in reverse order leaves the persisted preferred-network list exactly equal
to the edited list: the first element of the edited list is added last, so it ends at
index 0, and every unchanged entry left in the store is lifted into its place by its
own re-add. -/
theorem C1_reversed_add_reproduces_current (original networks : List String)
    (hno : original.Nodup) (hnc : networks.Nodup) :
    apply_network_priority_store original networks = networks := by
  unfold apply_network_priority_store
  by_cases hms : networks_to_modify original networks = []
  · rw [if_pos hms]
    exact (networks_to_modify_eq_nil original networks hno hms).symm
  · rw [if_neg hms, List.foldl_reverse]
    have hsnd :
        (List.foldl removeFromStore original (networks_to_modify original networks)).Nodup :=
      foldl_removeFromStore_nodup _ _ hno
    rw [foldr_addAtTop networks _ hnc hsnd]
    have hfil :
        (List.foldl removeFromStore original (networks_to_modify original networks)).filter
          (fun x => decide (x ∉ networks)) = [] := by
      rw [List.filter_eq_nil_iff]
      intro a ha
      obtain ⟨hao, hanot⟩ := (mem_foldl_removeFromStore _ _ hno a).mp ha
      simp only [decide_eq_true_eq, Decidable.not_not]
      by_contra hanet
      apply hanot
      rw [networks_to_modify]
      exact List.mem_append.mpr (Or.inr ((mem_removedNetworks _ _ a).mpr ⟨hao, hanet⟩))
    rw [hfil, List.append_nil]

theorem C1_reversed_add_reproduces_current_witness :
    apply_network_priority_store ["A", "B", "C"] ["C", "A", "B"] = ["C", "A", "B"] :=
  C1_reversed_add_reproduces_current ["A", "B", "C"] ["C", "A", "B"] (by decide) (by decide)

/-- C8 counterexample: a hardware-ports output whose first line contains the
wireless-adapter marker and whose third (later, but not immediately following) line is
`Device: en1`.  The claim says detection returns `en1`; the code skips the marker
because the next line does not start with `Device:` and falls back to `en0`. -/
theorem C8_detect_counterexample :
    markerLine "Hardware Port: Wi-Fi" = true ∧
    strStartsWith "Device: en1" "Device:" = true ∧
    splitLines "Hardware Port: Wi-Fi\nEthernet\nDevice: en1"
      = ["Hardware Port: Wi-Fi", "Ethernet", "Device: en1"] ∧
    pyStrip (strReplaceAll "Device: en1" "Device:" "") = "en1" ∧
    detect_wifi_interface "Hardware Port: Wi-Fi\nEthernet\nDevice: en1" = "en0" := by
  decide

theorem devicePairAt_cons_succ (a : String) (rest : List String) (k : Nat) :
    devicePairAt (a :: rest) (k + 1) ↔ devicePairAt rest k := by
  unfold devicePairAt
  simp [List.getD_cons_succ, Nat.succ_lt_succ_iff]

theorem detect_loop_spec :
    ∀ lines : List String,
      ((∀ i : Nat, ¬ devicePairAt lines i) → detect_loop lines = "en0") ∧
      (∀ i : Nat, devicePairAt lines i →
        ∃ j : Nat, devicePairAt lines j ∧ (∀ k, k < j → ¬ devicePairAt lines k) ∧
          detect_loop lines
            = pyStrip (strReplaceAll (lines.getD (j + 1) "") "Device:" "")) := by
  intro lines
  induction lines with
  | nil =>
    constructor
    · intro _
      rfl
    · intro i hp
      unfold devicePairAt at hp
      simp at hp
  | cons a rest ih =>
    by_cases hm : markerLine a = true
    · cases rest with
      | nil =>
        constructor
        · intro _
          simp [detect_loop, hm]
        · intro i hp
          exfalso
          cases i with
          | zero =>
            unfold devicePairAt at hp
            simp at hp
          | succ k =>
            rw [devicePairAt_cons_succ] at hp
            unfold devicePairAt at hp
            simp at hp
      | cons b rest2 =>
        by_cases hd : strStartsWith b "Device:" = true
        · have hdet : detect_loop (a :: b :: rest2)
              = pyStrip (strReplaceAll b "Device:" "") := by
            simp [detect_loop, hm, hd]
          constructor
          · intro hnone
            exfalso
            apply hnone 0
            unfold devicePairAt
            simp [hm, hd]
          · intro i _
            refine ⟨0, ?_, ?_, ?_⟩
            · unfold devicePairAt
              simp [hm, hd]
            · intro k hk
              omega
            · rw [hdet]
              rfl
        · have hp0 : ¬ devicePairAt (a :: b :: rest2) 0 := by
            unfold devicePairAt
            simp [hd]
          have hdet : detect_loop (a :: b :: rest2) = detect_loop (b :: rest2) := by
            simp [detect_loop, hm, hd]
          constructor
          · intro hnone
            rw [hdet]
            apply ih.1
            intro k
            have hk := hnone (k + 1)
            rwa [devicePairAt_cons_succ] at hk
          · intro i hp
            have hrest : ∃ k, devicePairAt (b :: rest2) k := by
              cases i with
              | zero => exact absurd hp hp0
              | succ k => exact ⟨k, (devicePairAt_cons_succ _ _ _).mp hp⟩
            obtain ⟨k, hk⟩ := hrest
            obtain ⟨j, hj1, hj2, hj3⟩ := ih.2 k hk
            refine ⟨j + 1, (devicePairAt_cons_succ _ _ _).mpr hj1, ?_, ?_⟩
            · intro k2 hk2
              cases k2 with
              | zero => exact hp0
              | succ k3 =>
                rw [devicePairAt_cons_succ]
                exact hj2 k3 (by omega)
            · rw [hdet, hj3]
              rfl
    · have hp0 : ¬ devicePairAt (a :: rest) 0 := by
        unfold devicePairAt
        intro hc
        exact hm (by simpa using hc.1)
      have hdet : detect_loop (a :: rest) = detect_loop rest := by
        simp [detect_loop, hm]
      constructor
      · intro hnone
        rw [hdet]
        apply ih.1
        intro k
        have hk := hnone (k + 1)
        rwa [devicePairAt_cons_succ] at hk
      · intro i hp
        have hrest : ∃ k, devicePairAt rest k := by
          cases i with
          | zero => exact absurd hp hp0
          | succ k => exact ⟨k, (devicePairAt_cons_succ _ _ _).mp hp⟩
        obtain ⟨k, hk⟩ := hrest
        obtain ⟨j, hj1, hj2, hj3⟩ := ih.2 k hk
        refine ⟨j + 1, (devicePairAt_cons_succ _ _ _).mpr hj1, ?_, ?_⟩
        · intro k2 hk2
          cases k2 with
          | zero => exact hp0
          | succ k3 =>
            rw [devicePairAt_cons_succ]
            exact hj2 k3 (by omega)
        · rw [hdet, hj3]
          cases rest with
          | nil => rfl
          | cons c rest3 => rfl

/-- C8 amended: detection never raises (total function); when no line containing the
wireless-adapter marker is immediately followed by a line starting with `Device:`, the
default `en0` is returned; when some line is, the result is the device value taken from
the line immediately after the first such marker line — an adapter block whose
`Device:` line comes later than immediately after the marker is skipped. -/
theorem C8_detect_immediate_device_line (stdout : String) :
    ((∀ i : Nat, ¬ devicePairAt (splitLines stdout) i) →
        detect_wifi_interface stdout = "en0") ∧
    (∀ i : Nat, devicePairAt (splitLines stdout) i →
      ∃ j : Nat, devicePairAt (splitLines stdout) j ∧
        (∀ k, k < j → ¬ devicePairAt (splitLines stdout) k) ∧
        detect_wifi_interface stdout
          = pyStrip (strReplaceAll ((splitLines stdout).getD (j + 1) "") "Device:" "")) :=
  detect_loop_spec (splitLines stdout)

theorem C8_detect_immediate_device_line_witness :
    detect_wifi_interface "Hardware Port: Wi-Fi\nDevice: en1\nEthernet" = "en1" := by
  obtain ⟨j, hj, hmin, heq⟩ :=
    (C8_detect_immediate_device_line "Hardware Port: Wi-Fi\nDevice: en1\nEthernet").2 0
      (by unfold devicePairAt; decide)
  have hj0 : j = 0 := by
    by_contra hne
    exact hmin 0 (by omega) (by unfold devicePairAt; decide)
  subst hj0
  rw [heq]
  decide
